import Mathlib

/-!
Verification development for the sanitize-data library (src/index.ts).

The library walks an arbitrary JSON-like value, selects a sanitization mode
for every key from a set of path-pattern rules, and rebuilds the tree with
masked / redacted / generated / preserved values.

This file gives a shallow embedding of the TypeScript source:
JavaScript values become the inductive type JSValue, JS objects become
association lists in own-key (insertion) order, and the pseudo-random draws
made by Math.random become an explicit RandomOracle parameter.  Each
definition is a direct rendition of one source function and is named after
it; source line numbers refer to src/index.ts.
-/

/-- JavaScript values as processed by the library: null, undefined, booleans,
numbers (modelled as integers; the claims exercise no float-specific
behavior), strings, arrays, and plain objects whose field list is kept in
own-key iteration order. -/
inductive JSValue where
  | vNull : JSValue
  | vUndef : JSValue
  | vBool (b : Bool) : JSValue
  | vNum (n : Int) : JSValue
  | vStr (s : String) : JSValue
  | vArr (elems : List JSValue) : JSValue
  | vObj (fields : List (String × JSValue)) : JSValue

/-- typeof v === "object" in JS: true for null, arrays and objects. -/
def typeofIsObject : JSValue → Bool
  | .vNull => true
  | .vArr _ => true
  | .vObj _ => true
  | _ => false

/-- value !== null && typeof value === "object": arrays and objects only. -/
def isCompositeV : JSValue → Bool
  | .vArr _ => true
  | .vObj _ => true
  | _ => false

mutual

/-- JS String(value) coercion, as used by maskValue (src line 596). -/
def jsString : JSValue → String
  | .vNull => "null"
  | .vUndef => "undefined"
  | .vBool b => if b then "true" else "false"
  | .vNum n => toString n
  | .vStr s => s
  | .vObj _ => "[object Object]"
  | .vArr es => jsArrString es
termination_by v => (sizeOf v, 0)

/-- Array-to-string: elements joined with commas (Array.prototype.join). -/
def jsArrString : List JSValue → String
  | [] => ""
  | [e] => jsElemString e
  | e :: rest => jsElemString e ++ "," ++ jsArrString rest
termination_by es => (sizeOf es, 2)

/-- Inside a join, null and undefined render as the empty string. -/
def jsElemString : JSValue → String
  | .vNull => ""
  | .vUndef => ""
  | v => jsString v
termination_by v => (sizeOf v, 1)

end

/-- maskValue (src lines 595-598): a run of asterisks whose length is the
stringified value's length capped at 8. -/
def maskValue (value : JSValue) : String :=
  String.mk (List.replicate (min 8 (jsString value).length) '*')

/-- One step of the character scan of parsePath: (remaining chars, collected
parts, current part, inBrackets flag). -/
def parsePathAux : List Char → List String → String → Bool → List String
  | [], parts, cur, _ => if cur ≠ "" then parts ++ [cur] else parts
  | c :: rest, parts, cur, inB =>
    if c = '.' ∧ ¬inB then
      parsePathAux rest (if cur ≠ "" then parts ++ [cur] else parts) "" inB
    else if c = '[' ∧ ¬inB then
      parsePathAux rest (if cur ≠ "" then parts ++ [cur] else parts) "" true
    else if c = ']' ∧ inB then
      parsePathAux rest (parts ++ [cur]) "" false
    else
      parsePathAux rest parts (cur.push c) inB

/-- parsePath (src lines 101-134): split a dot/bracket path expression into
segments.  Empty segments are only kept when produced by a bracket pair. -/
def parsePath (path : String) : List String :=
  parsePathAux path.toList [] "" false

/-- Array.prototype.join(".") over path segments. -/
def joinDot (segs : List String) : String :=
  String.intercalate "." segs

/-- The four sanitization modes (src line 1). -/
inductive SanitizerMode where
  | mask : SanitizerMode
  | redact : SanitizerMode
  | random : SanitizerMode
  | preserve : SanitizerMode
deriving DecidableEq

/-- JS object property lookup on an association list (first binding wins,
matching unique-key JS objects). -/
def lookupJS {α : Type} (l : List (String × α)) (k : String) : Option α :=
  (l.find? (fun p => p.1 = k)).map Prod.snd

/-- The recursive helper match(i, j) of matchRule (src lines 147-168),
expressed on the remaining pattern / path segment suffixes.  A non-final
any-depth wildcard backtracks over every possible number of consumed
segments. -/
def matchSeg : List String → List String → Bool
  | [], ps => ps.isEmpty
  | r :: rest, ps =>
    if r = "**" then
      if rest = [] then true
      else (List.range (ps.length + 1)).any (fun skip => matchSeg rest (ps.drop skip))
    else
      match ps with
      | p :: ps' => if r = "*" ∨ r = p then matchSeg rest ps' else false
      | [] => false

/-- matchRule (src lines 136-177): exact key lookup first, then the first
rule whose parsed pattern matches the parsed path via matchSeg.  This
function is defined in the source but never called by sanitize. -/
def matchRule (path : String) (rules : List (String × SanitizerMode)) : Option SanitizerMode :=
  match lookupJS rules path with
  | some m => some m
  | none =>
    let pathParts := parsePath path
    match rules.find? (fun p => matchSeg (parsePath p.1) pathParts) with
    | some p => some p.2
    | none => none

/-- Elementwise comparison of a pattern base against the leading segments of
a path: base.every((segment, i) => parsedPath[i] === segment).  A missing
path segment compares as false (undefined === segment). -/
def segsLead : List String → List String → Bool
  | [], _ => true
  | s :: rest, p :: ps => s = p && segsLead rest ps
  | _ :: _, [] => false

/-- Full elementwise equality of two segment lists (implies equal length). -/
def segsEq : List String → List String → Bool
  | [], [] => true
  | a :: as', b :: bs => a = b && segsEq as' bs
  | _, _ => false

/-- The /^\d+$/ test: a nonempty all-digit segment (a valid array index). -/
def isDigits (s : String) : Bool :=
  s ≠ "" && s.toList.all (fun c => c.isDigit)

/-- The [*]-pattern segment loop of findMostSpecificRule (src lines
230-242): a * segment requires an all-digit path segment, any other
segment must be equal; the lists must have equal length. -/
def arrayWildMatch : List String → List String → Bool
  | [], [] => true
  | r :: rs, p :: ps => (if r = "*" then isDigits p else r = p) && arrayWildMatch rs ps
  | _, _ => false

/-- Number of * segments of a rule (arrayWildcardsCount, src line 237). -/
def countStars : List String → Nat
  | [] => 0
  | s :: rest => (if s = "*" then 1 else 0) + countStars rest

/-- The non-exact match attempt of one rule key against a parsed path inside
findMostSpecificRule (src lines 196-273), returning the specificity score
when the rule matches.  The branches appear in source order: trailing **,
trailing *, embedded array wildcard *, bare key at any level, and exact
segmentwise equality. -/
def ruleCandidate (parsedPath : List String) (keyMatchAnyLevel : Bool)
    (ruleKey : String) (mode : SanitizerMode) : Option (Nat × SanitizerMode) :=
  let rp := parsePath ruleKey
  if rp.getLast? = some "**" then
    let base := rp.dropLast
    if segsLead base parsedPath then some (base.length * 100 + 1, mode) else none
  else if rp.getLast? = some "*" then
    let base := rp.dropLast
    if segsLead base parsedPath ∧ parsedPath.length = base.length + 1 then
      some (base.length * 100 + 2, mode)
    else none
  else if rp.any (fun s => s = "*") then
    if rp.length = parsedPath.length ∧ arrayWildMatch rp parsedPath then
      some (rp.length * 100 + 5 - countStars rp, mode)
    else none
  else if rp.length = 1 ∧ keyMatchAnyLevel then
    if parsedPath.getLast? = some (rp.headD "") then some (1, mode) else none
  else if parsedPath.length = rp.length then
    if segsEq rp parsedPath then some (rp.length * 100 + 10, mode) else none
  else none

/-- bestMatch update (src lines 202-204 etc.): a new candidate replaces the
current best only with a strictly greater specificity, so on a tie the
earlier rule wins. -/
def betterOf (best cand : Option (Nat × SanitizerMode)) : Option (Nat × SanitizerMode) :=
  match cand with
  | none => best
  | some (s, m) =>
    match best with
    | none => some (s, m)
    | some (bs, bm) => if s > bs then some (s, m) else some (bs, bm)

/-- The rule loop of findMostSpecificRule: a rule key that equals the path
string returns its mode immediately (src lines 191-194); otherwise the
best-scoring candidate so far is tracked. -/
def fmsrGo (path : String) (parsedPath : List String) (keyMatchAnyLevel : Bool) :
    List (String × SanitizerMode) → Option (Nat × SanitizerMode) → Option SanitizerMode
  | [], best => best.map Prod.snd
  | (ruleKey, mode) :: rest, best =>
    if ruleKey = path then some mode
    else fmsrGo path parsedPath keyMatchAnyLevel rest
      (betterOf best (ruleCandidate parsedPath keyMatchAnyLevel ruleKey mode))

/-- findMostSpecificRule (src lines 179-277). -/
def findMostSpecificRule (path : String) (parsedPath : List String)
    (rules : List (String × SanitizerMode)) (keyMatchAnyLevel : Bool) : Option SanitizerMode :=
  fmsrGo path parsedPath keyMatchAnyLevel rules none

/-- l starts with the given lead sequence of characters. -/
def charsStartWith : List Char → List Char → Bool
  | _, [] => true
  | [], _ :: _ => false
  | c :: cs, d :: ds => c = d && charsStartWith cs ds

/-- String.prototype.includes on character lists. -/
def charsInclude (sub : List Char) : List Char → Bool
  | [] => charsStartWith [] sub
  | c :: rest => charsStartWith (c :: rest) sub || charsInclude sub rest

/-- String.prototype.includes. -/
def strIncludes (s sub : String) : Bool :=
  charsInclude sub.toList s.toList

/-- pattern.replace of every literal [*] by .* (src line 428). -/
def replaceStarBrackets : List Char → List Char
  | '[' :: '*' :: ']' :: rest => '.' :: '*' :: replaceStarBrackets rest
  | c :: rest => c :: replaceStarBrackets rest
  | [] => []

/-- targetPath.replace of every bracketed digit run [n] by .n (src line
429), scanning left to right as the global regex /\[(\d+)\]/g does.  The
second argument is none outside a candidate bracket and some acc with the
digits collected so far inside one; a bracket that does not close over a
nonempty digit run is kept literally, and (as with the regex) a fresh [
immediately restarts a candidate match. -/
def normBrkGo : List Char → Option (List Char) → List Char
  | [], none => []
  | [], some acc => '[' :: acc.reverse
  | c :: rest, none =>
    if c = '[' then normBrkGo rest (some []) else c :: normBrkGo rest none
  | c :: rest, some acc =>
    if c.isDigit then normBrkGo rest (some (c :: acc))
    else if c = ']' ∧ acc ≠ [] then '.' :: acc.reverse ++ normBrkGo rest none
    else if c = '[' then '[' :: acc.reverse ++ normBrkGo rest (some [])
    else '[' :: acc.reverse ++ c :: normBrkGo rest none

/-- The normalized target path of src line 429. -/
def normBrkAux (l : List Char) : List Char :=
  normBrkGo l none

/-- Tokens of the regex built at src lines 432-437: every * of the
normalized pattern becomes a one-or-more-digits group, every other
character stands for itself.  (The source does not escape further regex
metacharacters; patterns containing them are outside this model.) -/
inductive RTok where
  | lit (c : Char) : RTok
  | digits : RTok

/-- Compile the normalized pattern into regex tokens. -/
def regexToks : List Char → List RTok
  | [] => []
  | '*' :: rest => .digits :: regexToks rest
  | c :: rest => .lit c :: regexToks rest

/-- Case-insensitive character comparison (the i regex flag). -/
def eqCharCI (ci : Bool) (a b : Char) : Bool :=
  if ci then a.toLower = b.toLower else a = b

/-- Anchored match of the token list against the whole char list, with
backtracking over how many digits each digit group consumes. -/
def regexRun (ci : Bool) : List RTok → List Char → Bool
  | [], cs => cs.isEmpty
  | .lit _ :: _, [] => false
  | .lit c :: ts, d :: cs => eqCharCI ci c d && regexRun ci ts cs
  | .digits :: ts, cs =>
    (List.range cs.length).any (fun k =>
      (cs.take (k + 1)).all (fun c => c.isDigit) && regexRun ci ts (cs.drop (k + 1)))

/-- Case-optionally-insensitive string comparison (the compareFn of src
lines 420-422). -/
def eqStrCI (ci : Bool) (a b : String) : Bool :=
  if ci then a.toLower = b.toLower else a = b

/-- compareFn applied to a possibly missing path segment.  With ci false the
source compares undefined with === and gets false; with ci true the source
would throw a TypeError calling toLowerCase on undefined - the model
returns false there (no claim reaches that corner). -/
def eqStrCIOpt (ci : Bool) (a : String) : Option String → Bool
  | some s => eqStrCI ci a s
  | none => false

/-- Elementwise lead comparison with compareFn; a missing path segment
compares as false (see eqStrCIOpt for the ci caveat). -/
def segsLeadCI (ci : Bool) : List String → List String → Bool
  | [], _ => true
  | s :: rest, p :: ps => eqStrCI ci s p && segsLeadCI ci rest ps
  | _ :: _, [] => false

/-- Elementwise equality with compareFn (implies equal length). -/
def segsEqCI (ci : Bool) : List String → List String → Bool
  | [], [] => true
  | a :: as', b :: bs => eqStrCI ci a b && segsEqCI ci as' bs
  | _, _ => false

/-- Array wildcard loop with compareFn for non-* segments (src lines
388-399). -/
def arrayWildMatchCI (ci : Bool) : List String → List String → Bool
  | [], [] => true
  | r :: rs, p :: ps => (if r = "*" then isDigits p else eqStrCI ci r p) && arrayWildMatchCI ci rs ps
  | _, _ => false

/-- Array.prototype.indexOf of the first ** segment (src line 488); only
consulted under a guard that guarantees one exists. -/
def idxOfStarStar : List String → Nat
  | [] => 0
  | s :: rest => if s = "**" then 0 else 1 + idxOfStarStar rest

/-- matchWildcardPattern (src lines 419-517): bracketed [*] patterns go
through the digit regex; *.suffix patterns match at the root or as a
trailing suffix at any depth; a trailing ** matches when its lead
segments match; otherwise segments are compared pairwise with * matching
anything. -/
def matchWildcardPattern (targetPath pattern : String) (ci : Bool) : Bool :=
  if strIncludes pattern "[*]" then
    regexRun ci (regexToks (replaceStarBrackets pattern.toList)) (normBrkAux targetPath.toList)
  else
    let targetParts := parsePath targetPath
    let patternParts := parsePath pattern
    if charsStartWith pattern.toList ['*', '.'] ∧ patternParts.length > 1 then
      let suffix := patternParts.drop 1
      if targetParts.length = suffix.length ∧ segsEqCI ci suffix targetParts then true
      else if targetParts.length > suffix.length ∧
          segsEqCI ci suffix (targetParts.drop (targetParts.length - suffix.length)) then true
      else false
    else if ¬strIncludes pattern "**" ∧ patternParts.length ≠ targetParts.length then false
    else if patternParts.any (fun s => s = "**") then
      let index := idxOfStarStar patternParts
      if (List.range index).all (fun i =>
          patternParts.getD i "" = "*" || eqStrCI ci (patternParts.getD i "") (targetParts.getD i "")) then
        index = patternParts.length - 1
      else false
    else
      (List.range patternParts.length).all (fun i =>
        patternParts.getD i "" = "*" || eqStrCIOpt ci (patternParts.getD i "") targetParts[i]?)

/-- A field-keyed generator: (value, path) => unknown (src line 81). -/
def FieldGen : Type := JSValue → String → JSValue

/-- The type-keyed generator registry randomGenerators (src lines 61-67).
The number / string / boolean entries are zero-argument thunks in the
source; a thunk is modelled by the value it returns.  The array and object
entries receive the current value. -/
structure RandomGenerators where
  number : Option JSValue := none
  string : Option JSValue := none
  boolean : Option JSValue := none
  array : Option (JSValue → JSValue) := none
  object : Option (JSValue → JSValue) := none

/-- The pseudo-random draws of the built-in fallbacks (src lines 612-614):
Math.floor(Math.random() * 10000), Math.random().toString(36).slice(2, 10)
and Math.random() > 0.5, modelled as explicit oracle values. -/
structure RandomOracle where
  number : Int := 0
  string : String := "rnd0"
  boolean : Bool := true

/-- The configuration of one sanitize call after the destructuring with
defaults at src lines 280-289. -/
structure SanitizeConfig where
  rules : List (String × SanitizerMode)
  defaultMode : SanitizerMode
  redactString : String
  randomString : String
  randomGenerators : RandomGenerators
  randomFieldGenerators : List (String × FieldGen)
  randomFieldGeneratorsCaseInsensitive : Bool
  keyMatchAnyLevel : Bool
  oracle : RandomOracle

/-- JS object property assignment on an association list: an existing key
keeps its position and gets the new value, a new key is appended. -/
def jsObjInsert (m : List (String × FieldGen)) (k : String) (v : FieldGen) :
    List (String × FieldGen) :=
  if m.any (fun p => p.1 = k) then m.map (fun p => if p.1 = k then (p.1, v) else p)
  else m ++ [(k, v)]

/-- The lowercased mirror map randomFieldGeneratorsLower (src lines
292-298). -/
def buildLower (fgs : List (String × FieldGen)) : List (String × FieldGen) :=
  fgs.foldl (fun acc p => jsObjInsert acc p.1.toLower p.2) []

/-- One iteration of the final lookup loop of
findMatchingRandomFieldGenerator (src lines 346-413) for a single
generator key: a bare key matches the last path segment at any level, and
independently of that the trailing-**, trailing-*, array-wildcard and
exact-segment branches are tried in source order. -/
def fgLoopMatches (cfg : SanitizeConfig) (ci : Bool) (parsedPath : List String)
    (genKey : String) : Bool :=
  let gp := parsePath genKey
  let plainKeyHit :=
    gp.length = 1 && cfg.keyMatchAnyLevel &&
      (match parsedPath.getLast? with
       | some s => eqStrCI ci s (gp.headD "")
       | none => false)
  plainKeyHit ||
    (if gp.getLast? = some "**" then
      let base := gp.dropLast
      segsLeadCI ci base parsedPath && decide (parsedPath.length ≥ base.length)
    else if gp.getLast? = some "*" then
      let base := gp.dropLast
      segsLeadCI ci base parsedPath && decide (parsedPath.length = base.length + 1)
    else if gp.any (fun s => s = "*") then
      decide (gp.length = parsedPath.length) && arrayWildMatchCI ci gp parsedPath
    else
      decide (parsedPath.length = gp.length) && segsEqCI ci gp parsedPath)

/-- findMatchingRandomFieldGenerator (src lines 301-416): exact path lookup,
then the lowercased exact lookup when case-insensitive matching is on,
then matchWildcardPattern over the registered keys (and again lowercased
when case-insensitive), and finally the rule-style matching loop over the
chosen registry. -/
def findMatchingRandomFieldGenerator (cfg : SanitizeConfig) (path : String)
    (parsedPath : List String) : Option FieldGen :=
  let fgs := cfg.randomFieldGenerators
  let ci := cfg.randomFieldGeneratorsCaseInsensitive
  let lower := buildLower fgs
  match lookupJS fgs path with
  | some f => some f
  | none =>
  match (if ci then lookupJS lower path.toLower else none) with
  | some f => some f
  | none =>
  match fgs.find? (fun p => matchWildcardPattern path p.1 ci) with
  | some p => some p.2
  | none =>
  match (if ci then lower.find? (fun p => matchWildcardPattern path.toLower p.1 true) else none) with
  | some p => some p.2
  | none =>
  let toCheck := if ci then lower else fgs
  (toCheck.find? (fun p => fgLoopMatches cfg ci parsedPath p.1)).map Prod.snd

/-- randomValue (src lines 601-617): custom type-keyed generators first,
then the built-in pseudo-random substitutes per primitive type, arrays
elementwise from their first element, and the placeholder string for
everything else.  (An array with no array generator but an object
generator hits the typeof-object check and gets the object generator.) -/
def randomValue (cfg : SanitizeConfig) : JSValue → JSValue
  | .vNum _ => (cfg.randomGenerators.number).getD (.vNum cfg.oracle.number)
  | .vStr _ => (cfg.randomGenerators.string).getD (.vStr cfg.oracle.string)
  | .vBool _ => (cfg.randomGenerators.boolean).getD (.vBool cfg.oracle.boolean)
  | .vArr es =>
    match cfg.randomGenerators.array with
    | some g => g (.vArr es)
    | none =>
      match cfg.randomGenerators.object with
      | some g => g (.vArr es)
      | none =>
        match es with
        | [] => .vArr []
        | e :: rest =>
          let r := randomValue cfg e
          .vArr ((e :: rest).map (fun _ => r))
  | .vObj fs =>
    match cfg.randomGenerators.object with
    | some g => g (.vObj fs)
    | none => .vStr cfg.randomString
  | .vNull => .vStr cfg.randomString
  | .vUndef => .vStr cfg.randomString

/-- The mode chosen for the child at key under path (src lines 529-535):
the most specific rule, defaulting to defaultMode. -/
def selectMode (cfg : SanitizeConfig) (path : List String) (key : String) : SanitizerMode :=
  let fullPath := joinDot (path ++ [key])
  let parsedPath := parsePath fullPath
  (findMostSpecificRule (joinDot parsedPath) parsedPath cfg.rules cfg.keyMatchAnyLevel).getD
    cfg.defaultMode

/-- The field generator resolved for the child at key under path (src line
539). -/
def fieldGenFor (cfg : SanitizeConfig) (path : List String) (key : String) : Option FieldGen :=
  let fullPath := joinDot (path ++ [key])
  findMatchingRandomFieldGenerator cfg fullPath (parsePath fullPath)

mutual

/-- walk (src lines 519-591): primitives are returned unchanged, composites
are rebuilt key by key. -/
def walk (cfg : SanitizeConfig) (obj : JSValue) (path : List String) : JSValue :=
  match obj with
  | .vObj fields => .vObj (walkFields cfg path fields)
  | .vArr elems => .vArr (walkElems cfg path 0 elems)
  | v => v
termination_by 2 * sizeOf obj

/-- The for-of loop of walk over an object's own keys. -/
def walkFields (cfg : SanitizeConfig) (path : List String) :
    List (String × JSValue) → List (String × JSValue)
  | [] => []
  | (k, v) :: rest => (k, walkStep cfg path k v) :: walkFields cfg path rest
termination_by fields => 2 * sizeOf fields

/-- The for-of loop of walk over an array's indices. -/
def walkElems (cfg : SanitizeConfig) (path : List String) (i : Nat) :
    List JSValue → List JSValue
  | [] => []
  | v :: rest => walkStep cfg path (toString i) v :: walkElems cfg path (i + 1) rest
termination_by elems => 2 * sizeOf elems

/-- The switch over the selected mode for one child (src lines 541-586):
mask recurses into composites and masks primitives; redact replaces the
whole child with the redact string; random applies a matching field
generator, else for objects an object generator unless field generators
are registered (then it recurses), for arrays an array generator
unconditionally, else recurses, and for primitives randomValue; preserve
recurses into anything of typeof object and copies the rest. -/
def walkStep (cfg : SanitizeConfig) (path : List String) (key : String) (value : JSValue) :
    JSValue :=
  match selectMode cfg path key with
  | .mask =>
    if isCompositeV value then walk cfg value (path ++ [key])
    else .vStr (maskValue value)
  | .redact => .vStr cfg.redactString
  | .random =>
    match fieldGenFor cfg path key with
    | some f => f value (joinDot (path ++ [key]))
    | none =>
      match value with
      | .vObj fields =>
        match cfg.randomGenerators.object with
        | some fObj =>
          if cfg.randomFieldGenerators.length > 0 then walk cfg (.vObj fields) (path ++ [key])
          else fObj (.vObj fields)
        | none => walk cfg (.vObj fields) (path ++ [key])
      | .vArr elems =>
        match cfg.randomGenerators.array with
        | some fArr => fArr (.vArr elems)
        | none => walk cfg (.vArr elems) (path ++ [key])
      | v => randomValue cfg v
  | .preserve =>
    if typeofIsObject value then walk cfg value (path ++ [key]) else value
termination_by 2 * sizeOf value + 1

end

/-- The caller-facing options bag SanitizeOptions (src lines 7-99); every
field is optional. -/
structure SanitizeOptions where
  rules : Option (List (String × SanitizerMode)) := none
  defaultMode : Option SanitizerMode := none
  redactString : Option String := none
  randomString : Option String := none
  randomGenerators : Option RandomGenerators := none
  randomFieldGenerators : Option (List (String × FieldGen)) := none
  randomFieldGeneratorsCaseInsensitive : Option Bool := none
  keyMatchAnyLevel : Option Bool := none

/-- The destructuring with defaults at src lines 280-289. -/
def resolveOptions (o : SanitizeOptions) (oracle : RandomOracle) : SanitizeConfig where
  rules := o.rules.getD []
  defaultMode := o.defaultMode.getD .preserve
  redactString := o.redactString.getD "[REDACTED]"
  randomString := o.randomString.getD "[random]"
  randomGenerators := o.randomGenerators.getD {}
  randomFieldGenerators := o.randomFieldGenerators.getD []
  randomFieldGeneratorsCaseInsensitive := o.randomFieldGeneratorsCaseInsensitive.getD false
  keyMatchAnyLevel := o.keyMatchAnyLevel.getD true
  oracle := oracle

/-- sanitize (src lines 279-592): resolve the options and walk the input
from the empty path. -/
def sanitize (input : JSValue) (options : SanitizeOptions) (oracle : RandomOracle) : JSValue :=
  walk (resolveOptions options oracle) input []

/-- The heap-represented values of the cycle model: a child is either a
primitive value or a reference to another heap node. -/
inductive HVal where
  | prim (v : JSValue) : HVal
  | ref (n : Nat) : HVal

mutual

/-- Heap rendition of walk (src lines 519-591) for inputs that contain
reference cycles, which the tree type JSValue cannot represent: nodes live
in a heap of object field lists and children may point back at any node.
The source walk keeps no visited-node table, so its only resource is the
JS call stack; the fuel argument models it, and a result of none means the
recursion exceeds every finite stack.  The model covers calls without
custom generators or field generators (the library defaults), so in
random mode a composite child is recursed into and a primitive child gets
the built-in oracle substitute, exactly as in the source. -/
def walkH (rules : List (String × SanitizerMode)) (kmal : Bool) (dm : SanitizerMode)
    (rs : String) (oracle : RandomOracle) (randomString : String)
    (heap : List (List (String × HVal))) : Nat → Nat → List String → Option JSValue
  | 0, _, _ => none
  | fuel + 1, node, path =>
    match heap[node]? with
    | none => none
    | some fields =>
      (walkHFields rules kmal dm rs oracle randomString heap fuel path fields).map JSValue.vObj
termination_by fuel => (fuel, 0, 0)

/-- The per-key loop of the heap walk; mode selection is the same
findMostSpecificRule call that walkStep makes. -/
def walkHFields (rules : List (String × SanitizerMode)) (kmal : Bool) (dm : SanitizerMode)
    (rs : String) (oracle : RandomOracle) (randomString : String)
    (heap : List (List (String × HVal))) :
    Nat → List String → List (String × HVal) → Option (List (String × JSValue))
  | _, _, [] => some []
  | fuel, path, (k, hv) :: rest =>
    let parsed := parsePath (joinDot (path ++ [k]))
    let mode := (findMostSpecificRule (joinDot parsed) parsed rules kmal).getD dm
    let child : Option JSValue :=
      match hv with
      | .prim p =>
        match mode with
        | .mask => some (.vStr (maskValue p))
        | .redact => some (.vStr rs)
        | .random =>
          some (match p with
            | .vNum _ => .vNum oracle.number
            | .vStr _ => .vStr oracle.string
            | .vBool _ => .vBool oracle.boolean
            | _ => .vStr randomString)
        | .preserve => some p
      | .ref m =>
        match mode with
        | .redact => some (.vStr rs)
        | _ => walkH rules kmal dm rs oracle randomString heap fuel m (path ++ [k])
    match child with
    | none => none
    | some v =>
      match walkHFields rules kmal dm rs oracle randomString heap fuel path rest with
      | none => none
      | some tl => some ((k, v) :: tl)
termination_by fuel _ fields => (fuel, 1, fields.length)

end

/-- The heap of the input a = {}; a.self = a: one object node whose single
field points back at itself. -/
def cyclicHeap : List (List (String × HVal)) := [[("self", HVal.ref 0)]]

/-- The resolved configuration of the C1 witness scenario: a wildcard rule
registered before an exact rule on the same path. -/
def c1cfg : SanitizeConfig := resolveOptions { rules := some [("a.*", .redact), ("a.b", .mask)] } {}

/-- The C3 input {user: {name: "A", meta: {city: "B"}}}. -/
def c3input : JSValue :=
  .vObj [("user", .vObj [("name", .vStr "A"), ("meta", .vObj [("city", .vStr "B")])])]

/-- The C5 scenario: an array generator and an object generator are both
registered, field-keyed generators are nonempty, and the rule sends the
key arr into random mode. -/
def c5cfg : SanitizeConfig :=
  { rules := [("arr", SanitizerMode.random)]
    defaultMode := .preserve
    redactString := "[REDACTED]"
    randomString := "[random]"
    randomGenerators :=
      { array := some (fun _ => .vStr "ARR"), object := some (fun _ => .vStr "OBJ") }
    randomFieldGenerators := [("zzz", fun v _ => v)]
    randomFieldGeneratorsCaseInsensitive := false
    keyMatchAnyLevel := true
    oracle := {} }

/-- The resolved configuration of the C6 witness scenario: one redact rule
on the key u. -/
def c6cfg : SanitizeConfig := resolveOptions { rules := some [("u", .redact)] } {}

/-- The resolved configuration of the C7 witness scenario: one mask rule on
the key a. -/
def c7cfg : SanitizeConfig := resolveOptions { rules := some [("a", .mask)] } {}

/-- The C8 input {a: {b: {c: "x"}}}. -/
def c8input : JSValue := .vObj [("a", .vObj [("b", .vObj [("c", .vStr "x")])])]

theorem walk_vObj (cfg : SanitizeConfig) (fs : List (String × JSValue)) (path : List String) :
    walk cfg (.vObj fs) path = .vObj (walkFields cfg path fs) := by
  simp [walk]

theorem walk_vArr (cfg : SanitizeConfig) (es : List JSValue) (path : List String) :
    walk cfg (.vArr es) path = .vArr (walkElems cfg path 0 es) := by
  simp [walk]

theorem walk_vNull (cfg : SanitizeConfig) (path : List String) :
    walk cfg .vNull path = .vNull := by simp [walk]

theorem walk_vUndef (cfg : SanitizeConfig) (path : List String) :
    walk cfg .vUndef path = .vUndef := by simp [walk]

theorem walk_vBool (cfg : SanitizeConfig) (b : Bool) (path : List String) :
    walk cfg (.vBool b) path = .vBool b := by simp [walk]

theorem walk_vNum (cfg : SanitizeConfig) (n : Int) (path : List String) :
    walk cfg (.vNum n) path = .vNum n := by simp [walk]

theorem walk_vStr (cfg : SanitizeConfig) (s : String) (path : List String) :
    walk cfg (.vStr s) path = .vStr s := by simp [walk]

theorem walkFields_nil (cfg : SanitizeConfig) (path : List String) :
    walkFields cfg path [] = [] := by simp [walkFields]

theorem walkFields_cons (cfg : SanitizeConfig) (path : List String) (k : String) (v : JSValue)
    (rest : List (String × JSValue)) :
    walkFields cfg path ((k, v) :: rest) =
      (k, walkStep cfg path k v) :: walkFields cfg path rest := by
  simp [walkFields]

theorem walkElems_nil (cfg : SanitizeConfig) (path : List String) (i : Nat) :
    walkElems cfg path i [] = [] := by simp [walkElems]

theorem walkElems_cons (cfg : SanitizeConfig) (path : List String) (i : Nat) (v : JSValue)
    (rest : List JSValue) :
    walkElems cfg path i (v :: rest) =
      walkStep cfg path (toString i) v :: walkElems cfg path (i + 1) rest := by
  simp [walkElems]

theorem walkStep_redact (cfg : SanitizeConfig) (path : List String) (key : String) (v : JSValue)
    (h : selectMode cfg path key = .redact) :
    walkStep cfg path key v = .vStr cfg.redactString := by
  cases v <;> simp [walkStep, h]

theorem walkStep_mask_comp (cfg : SanitizeConfig) (path : List String) (key : String)
    (v : JSValue) (h : selectMode cfg path key = .mask) (hv : isCompositeV v = true) :
    walkStep cfg path key v = walk cfg v (path ++ [key]) := by
  cases v <;> simp_all [walkStep, isCompositeV]

theorem walkStep_mask_prim (cfg : SanitizeConfig) (path : List String) (key : String)
    (v : JSValue) (h : selectMode cfg path key = .mask) (hv : isCompositeV v = false) :
    walkStep cfg path key v = .vStr (maskValue v) := by
  cases v <;> simp_all [walkStep, isCompositeV]

theorem walkStep_preserve_comp (cfg : SanitizeConfig) (path : List String) (key : String)
    (v : JSValue) (h : selectMode cfg path key = .preserve) (hv : typeofIsObject v = true) :
    walkStep cfg path key v = walk cfg v (path ++ [key]) := by
  cases v <;> simp_all [walkStep, typeofIsObject]

theorem walkStep_preserve_prim (cfg : SanitizeConfig) (path : List String) (key : String)
    (v : JSValue) (h : selectMode cfg path key = .preserve) (hv : typeofIsObject v = false) :
    walkStep cfg path key v = v := by
  cases v <;> simp_all [walkStep, typeofIsObject]

theorem walkStep_random_fieldgen (cfg : SanitizeConfig) (path : List String) (key : String)
    (v : JSValue) (f : FieldGen) (h : selectMode cfg path key = .random)
    (hf : fieldGenFor cfg path key = some f) :
    walkStep cfg path key v = f v (joinDot (path ++ [key])) := by
  cases v <;> simp [walkStep, h, hf]

theorem walkStep_random_obj_gen_fgs (cfg : SanitizeConfig) (path : List String) (key : String)
    (fs : List (String × JSValue)) (fObj : JSValue → JSValue)
    (h : selectMode cfg path key = .random) (hf : fieldGenFor cfg path key = none)
    (hobj : cfg.randomGenerators.object = some fObj)
    (hfgs : cfg.randomFieldGenerators ≠ []) :
    walkStep cfg path key (.vObj fs) = walk cfg (.vObj fs) (path ++ [key]) := by
  have hlen : 0 < cfg.randomFieldGenerators.length := List.length_pos.mpr hfgs
  simp [walkStep, h, hf, hobj, hlen]

theorem walkStep_random_obj_gen_nofgs (cfg : SanitizeConfig) (path : List String) (key : String)
    (fs : List (String × JSValue)) (fObj : JSValue → JSValue)
    (h : selectMode cfg path key = .random) (hf : fieldGenFor cfg path key = none)
    (hobj : cfg.randomGenerators.object = some fObj)
    (hfgs : cfg.randomFieldGenerators = []) :
    walkStep cfg path key (.vObj fs) = fObj (.vObj fs) := by
  simp [walkStep, h, hf, hobj, hfgs]

theorem walkStep_random_obj_nogen (cfg : SanitizeConfig) (path : List String) (key : String)
    (fs : List (String × JSValue))
    (h : selectMode cfg path key = .random) (hf : fieldGenFor cfg path key = none)
    (hobj : cfg.randomGenerators.object = none) :
    walkStep cfg path key (.vObj fs) = walk cfg (.vObj fs) (path ++ [key]) := by
  simp [walkStep, h, hf, hobj]

theorem walkStep_random_arr_gen (cfg : SanitizeConfig) (path : List String) (key : String)
    (es : List JSValue) (fArr : JSValue → JSValue)
    (h : selectMode cfg path key = .random) (hf : fieldGenFor cfg path key = none)
    (harr : cfg.randomGenerators.array = some fArr) :
    walkStep cfg path key (.vArr es) = fArr (.vArr es) := by
  simp [walkStep, h, hf, harr]

theorem walkStep_random_arr_nogen (cfg : SanitizeConfig) (path : List String) (key : String)
    (es : List JSValue)
    (h : selectMode cfg path key = .random) (hf : fieldGenFor cfg path key = none)
    (harr : cfg.randomGenerators.array = none) :
    walkStep cfg path key (.vArr es) = walk cfg (.vArr es) (path ++ [key]) := by
  simp [walkStep, h, hf, harr]

theorem walkStep_random_prim (cfg : SanitizeConfig) (path : List String) (key : String)
    (v : JSValue) (h : selectMode cfg path key = .random)
    (hf : fieldGenFor cfg path key = none) (hv : isCompositeV v = false) :
    walkStep cfg path key v = randomValue cfg v := by
  cases v <;> simp_all [walkStep, isCompositeV]

theorem fmsrGo_of_lookup (path : String) (parsedPath : List String) (kmal : Bool)
    (m : SanitizerMode) :
    ∀ (rules : List (String × SanitizerMode)) (best : Option (Nat × SanitizerMode)),
      lookupJS rules path = some m → fmsrGo path parsedPath kmal rules best = some m := by
  intro rules
  induction rules with
  | nil => intro best h; simp [lookupJS] at h
  | cons p rest ih =>
    intro best h
    obtain ⟨rk, rm⟩ := p
    by_cases hk : rk = path
    · subst hk
      simp [lookupJS] at h
      simp [fmsrGo, h]
    · have h' : lookupJS rest path = some m := by
        simpa [lookupJS, List.find?, hk] using h
      simp [fmsrGo, hk, ih _ h']

theorem findMostSpecificRule_exact (path : String) (parsedPath : List String)
    (rules : List (String × SanitizerMode)) (kmal : Bool) (m : SanitizerMode)
    (h : lookupJS rules path = some m) :
    findMostSpecificRule path parsedPath rules kmal = some m :=
  fmsrGo_of_lookup path parsedPath kmal m rules none h

theorem selectMode_of_no_rules (cfg : SanitizeConfig) (path : List String) (key : String)
    (h1 : cfg.rules = []) :
    selectMode cfg path key = cfg.defaultMode := by
  simp [selectMode, h1, findMostSpecificRule, fmsrGo]

theorem walkFields_preserve (cfg : SanitizeConfig) (h1 : cfg.rules = [])
    (h2 : cfg.defaultMode = .preserve) (path : List String) :
    ∀ (fs : List (String × JSValue)),
      (∀ p ∈ fs, ∀ (path' : List String), walk cfg p.2 path' = p.2) →
      walkFields cfg path fs = fs := by
  intro fs
  induction fs with
  | nil => intro _; exact walkFields_nil cfg path
  | cons p rest ih =>
    intro hall
    obtain ⟨k, v⟩ := p
    have hmode : selectMode cfg path k = .preserve := by
      rw [selectMode_of_no_rules cfg path k h1, h2]
    have hstep : walkStep cfg path k v = v := by
      cases hcomp : typeofIsObject v with
      | false => exact walkStep_preserve_prim cfg path k v hmode hcomp
      | true =>
        rw [walkStep_preserve_comp cfg path k v hmode hcomp]
        exact hall (k, v) (List.mem_cons_self _ _) (path ++ [k])
    rw [walkFields_cons, hstep, ih (fun q hq path' => hall q (List.mem_cons_of_mem _ hq) path')]

theorem walkElems_preserve (cfg : SanitizeConfig) (h1 : cfg.rules = [])
    (h2 : cfg.defaultMode = .preserve) (path : List String) :
    ∀ (es : List JSValue) (i : Nat),
      (∀ e ∈ es, ∀ (path' : List String), walk cfg e path' = e) →
      walkElems cfg path i es = es := by
  intro es
  induction es with
  | nil => intro i _; exact walkElems_nil cfg path i
  | cons v rest ih =>
    intro i hall
    have hmode : selectMode cfg path (toString i) = .preserve := by
      rw [selectMode_of_no_rules cfg path (toString i) h1, h2]
    have hstep : walkStep cfg path (toString i) v = v := by
      cases hcomp : typeofIsObject v with
      | false => exact walkStep_preserve_prim cfg path (toString i) v hmode hcomp
      | true =>
        rw [walkStep_preserve_comp cfg path (toString i) v hmode hcomp]
        exact hall v (List.mem_cons_self _ _) (path ++ [toString i])
    rw [walkElems_cons, hstep, ih (i + 1) (fun e he path' => hall e (List.mem_cons_of_mem _ he) path')]

theorem walk_preserve_bound (cfg : SanitizeConfig) (h1 : cfg.rules = [])
    (h2 : cfg.defaultMode = .preserve) :
    ∀ (n : Nat) (v : JSValue) (path : List String), sizeOf v ≤ n → walk cfg v path = v := by
  intro n
  induction n with
  | zero =>
    intro v path h
    cases v <;> simp at h
  | succ n ih =>
    intro v path h
    cases v with
    | vNull => exact walk_vNull cfg path
    | vUndef => exact walk_vUndef cfg path
    | vBool b => exact walk_vBool cfg b path
    | vNum m => exact walk_vNum cfg m path
    | vStr s => exact walk_vStr cfg s path
    | vArr es =>
      rw [walk_vArr]
      have hall : ∀ e ∈ es, ∀ (path' : List String), walk cfg e path' = e := by
        intro e he path'
        have hlt : sizeOf e < sizeOf (JSValue.vArr es) := by
          have := List.sizeOf_lt_of_mem he
          simp only [JSValue.vArr.sizeOf_spec]
          omega
        exact ih e path' (by omega)
      rw [walkElems_preserve cfg h1 h2 path es 0 hall]
    | vObj fs =>
      rw [walk_vObj]
      have hall : ∀ p ∈ fs, ∀ (path' : List String), walk cfg p.2 path' = p.2 := by
        intro p hp path'
        have hlt : sizeOf p.2 < sizeOf (JSValue.vObj fs) := by
          have h3 := List.sizeOf_lt_of_mem hp
          obtain ⟨a, b⟩ := p
          simp only [JSValue.vObj.sizeOf_spec, Prod.mk.sizeOf_spec] at *
          omega
        exact ih p.2 path' (by omega)
      rw [walkFields_preserve cfg h1 h2 path fs hall]

/-- C1: a rule whose pattern as written equals the path string computed for
a concrete node always supplies the selected mode, regardless of any
wildcard rules, their specificity scores, or their positions in the rule
set. -/
theorem exact_rule_always_wins (cfg : SanitizeConfig) (path : List String) (key : String)
    (m : SanitizerMode)
    (h : lookupJS cfg.rules (joinDot (parsePath (joinDot (path ++ [key])))) = some m) :
    findMostSpecificRule (joinDot (parsePath (joinDot (path ++ [key]))))
      (parsePath (joinDot (path ++ [key]))) cfg.rules cfg.keyMatchAnyLevel = some m
    ∧ selectMode cfg path key = m := by
  have hf := findMostSpecificRule_exact (joinDot (parsePath (joinDot (path ++ [key]))))
    (parsePath (joinDot (path ++ [key]))) cfg.rules cfg.keyMatchAnyLevel m h
  exact ⟨hf, by simp [selectMode, hf]⟩

/-- C1 witness: with the wildcard rule a.* registered before the exact rule
a.b, the exact mode mask is selected for the path a.b. -/
theorem exact_rule_always_wins_witness :
    lookupJS c1cfg.rules "a.b" = some SanitizerMode.mask
    ∧ selectMode c1cfg ["a"] "b" = SanitizerMode.mask :=
  ⟨rfl, (exact_rule_always_wins c1cfg ["a"] "b" .mask rfl).2⟩

/-- C2: refutation of cycle safety: on the self-referential input
a = {}; a.self = a with the default options, the walk of src lines
519-591 keeps no visited-node table and recurses forever - it returns no
result for any amount of call-stack fuel, instead of terminating with an
identity cycle as the claim requires. -/
theorem walk_diverges_on_cyclic_input :
    ∀ (fuel : Nat) (path : List String),
      walkH [] true .preserve "[REDACTED]" {} "[random]" cyclicHeap fuel 0 path = none := by
  intro fuel
  induction fuel with
  | zero => intro path; simp [walkH]
  | succ n ih =>
    intro path
    have ih' := ih (path ++ ["self"])
    simp only [cyclicHeap] at ih'
    simp [walkH, cyclicHeap, walkHFields, findMostSpecificRule, fmsrGo, ih']

/-- C3: the code collapses user: with the single rule user.** : redact, the
rule also matches the path user itself (the greater-or-equal length check
at src line 200 lets the trailing ** consume zero segments), so sanitize
replaces the whole user object by the redact string - instead of keeping
user an object whose children are each redacted, as the claim, the README
and the repository test expect. -/
theorem userStarStar_collapses_user :
    sanitize c3input { rules := some [("user.**", .redact)] } {} =
      .vObj [("user", .vStr "[REDACTED]")] := by
  show walk (resolveOptions { rules := some [("user.**", .redact)] } {}) c3input [] = _
  rw [c3input, walk_vObj, walkFields_cons, walkFields_nil,
    walkStep_redact _ _ _ _ (by rfl)]
  rfl

/-- C4 counterexample: a *.score rule is selected neither for the top-level
key score nor for the one-level-down path anything.score, and sanitize
leaves a top-level score field untouched under that rule. -/
theorem starDotScore_rule_not_selected :
    findMostSpecificRule "score" ["score"] [("*.score", SanitizerMode.random)] true = none
    ∧ findMostSpecificRule "anything.score" ["anything", "score"]
        [("*.score", SanitizerMode.random)] true = none
    ∧ sanitize (.vObj [("score", .vNum 100)]) { rules := some [("*.score", .random)] }
        { number := 4242 } = .vObj [("score", .vNum 100)] := by
  refine ⟨by decide, by decide, ?_⟩
  show walk _ (JSValue.vObj [("score", JSValue.vNum 100)]) [] = _
  rw [walk_vObj, walkFields_cons, walkFields_nil,
    walkStep_preserve_prim _ _ _ _ (by rfl) (by rfl)]

/-- C4 (amended): in rule selection a *.N pattern matches exactly the
two-segment paths whose first segment is an all-digit array index, such
as 7.score; it matches neither the bare key N nor a non-numeric parent.
The documented root-or-one-level shorthand exists only in
matchWildcardPattern, which is consulted for randomFieldGenerators keys
and accepts the bare key score, anything.score, and also deeper paths
ending in .score. -/
theorem starDotScore_semantics :
    (∀ m : SanitizerMode,
      findMostSpecificRule "7.score" ["7", "score"] [("*.score", m)] true = some m)
    ∧ (∀ m : SanitizerMode,
      findMostSpecificRule "score" ["score"] [("*.score", m)] true = none)
    ∧ (∀ m : SanitizerMode,
      findMostSpecificRule "anything.score" ["anything", "score"] [("*.score", m)] true = none)
    ∧ matchWildcardPattern "score" "*.score" false = true
    ∧ matchWildcardPattern "anything.score" "*.score" false = true
    ∧ matchWildcardPattern "a.b.score" "*.score" false = true :=
  ⟨fun _ => rfl, fun _ => rfl, fun _ => rfl, by decide, by decide, by decide⟩

/-- C5 counterexample: with field-keyed generators registered (nonempty)
and a rule sending an array child into random mode with no matching field
generator, the registered array generator is still applied to the array -
the walker does not recurse into it as the claim states. -/
theorem arrayGen_overrides_fieldgen_recursion :
    c5cfg.randomFieldGenerators ≠ []
    ∧ walk c5cfg (.vObj [("arr", .vArr [.vNum 1])]) [] = .vObj [("arr", .vStr "ARR")] := by
  constructor
  · exact List.cons_ne_nil _ _
  · rw [walk_vObj, walkFields_cons, walkFields_nil,
      walkStep_random_arr_gen _ _ _ _ (fun _ => .vStr "ARR") (by rfl) (by rfl) rfl]

/-- C5 (amended): in random mode with no matching field generator, the
registered-field-generators exception only protects objects: an object
child with a registered object generator is recursed into when any field
generators are registered and otherwise replaced by the generator output,
while an array child with a registered array generator is always replaced
by the generator output, field generators or not; without the respective
generator the walker recurses into the composite. -/
theorem random_composite_dispatch (cfg : SanitizeConfig) (path : List String) (key : String)
    (fs : List (String × JSValue)) (es : List JSValue)
    (hm : selectMode cfg path key = .random)
    (hf : fieldGenFor cfg path key = none) :
    (∀ fObj, cfg.randomGenerators.object = some fObj →
      (cfg.randomFieldGenerators ≠ [] →
        walkStep cfg path key (.vObj fs) = walk cfg (.vObj fs) (path ++ [key]))
      ∧ (cfg.randomFieldGenerators = [] →
        walkStep cfg path key (.vObj fs) = fObj (.vObj fs)))
    ∧ (cfg.randomGenerators.object = none →
        walkStep cfg path key (.vObj fs) = walk cfg (.vObj fs) (path ++ [key]))
    ∧ (∀ fArr, cfg.randomGenerators.array = some fArr →
        walkStep cfg path key (.vArr es) = fArr (.vArr es))
    ∧ (cfg.randomGenerators.array = none →
        walkStep cfg path key (.vArr es) = walk cfg (.vArr es) (path ++ [key])) := by
  refine ⟨fun fObj hobj => ⟨fun hfgs => ?_, fun hfgs => ?_⟩, fun hobj => ?_,
    fun fArr harr => ?_, fun harr => ?_⟩
  · exact walkStep_random_obj_gen_fgs cfg path key fs fObj hm hf hobj hfgs
  · exact walkStep_random_obj_gen_nofgs cfg path key fs fObj hm hf hobj hfgs
  · exact walkStep_random_obj_nogen cfg path key fs hm hf hobj
  · exact walkStep_random_arr_gen cfg path key es fArr hm hf harr
  · exact walkStep_random_arr_nogen cfg path key es hm hf harr

/-- C5 witness: in the c5cfg scenario the array generator replaces an array
child outright while an object child is recursed into. -/
theorem random_composite_dispatch_witness :
    walkStep c5cfg [] "arr" (.vArr []) = .vStr "ARR"
    ∧ walkStep c5cfg [] "arr" (.vObj []) = walk c5cfg (.vObj []) ["arr"] :=
  ⟨(random_composite_dispatch c5cfg [] "arr" [] [] rfl rfl).2.2.1 (fun _ => .vStr "ARR") rfl,
   ((random_composite_dispatch c5cfg [] "arr" [] [] rfl rfl).1 (fun _ => .vStr "OBJ") rfl).1
     (List.cons_ne_nil _ _)⟩

/-- C6: a node whose selected mode is redact is replaced by the configured
redact string verbatim - composite or primitive, with no recursion - and
the default redact string is [REDACTED]. -/
theorem redact_replaces_whole_value :
    (∀ (cfg : SanitizeConfig) (path : List String) (key : String) (v : JSValue),
      selectMode cfg path key = .redact → walkStep cfg path key v = .vStr cfg.redactString)
    ∧ (∀ (o : SanitizeOptions) (oracle : RandomOracle), o.redactString = none →
      (resolveOptions o oracle).redactString = "[REDACTED]") :=
  ⟨walkStep_redact, fun o oracle h => by simp [resolveOptions, h]⟩

/-- C6 witness: a redact rule on the key u replaces the whole object child
by [REDACTED]. -/
theorem redact_replaces_whole_value_witness :
    walkStep c6cfg [] "u" (.vObj [("a", .vNum 1)]) = .vStr "[REDACTED]"
    ∧ (resolveOptions {} {}).redactString = "[REDACTED]" :=
  ⟨redact_replaces_whole_value.1 c6cfg [] "u" (.vObj [("a", .vNum 1)]) rfl,
   redact_replaces_whole_value.2 {} {} rfl⟩

/-- C7: a node whose selected mode is mask is recursed into when the child
is composite - the container is never masked - and a primitive child is
replaced by a run of the mask character * whose length is the length of
the stringified value capped at the constant 8. -/
theorem mask_only_primitives (cfg : SanitizeConfig) (path : List String) (key : String)
    (v : JSValue) (h : selectMode cfg path key = .mask) :
    (isCompositeV v = true → walkStep cfg path key v = walk cfg v (path ++ [key]))
    ∧ (isCompositeV v = false →
      walkStep cfg path key v = .vStr (String.mk (List.replicate (min 8 (jsString v).length) '*'))) :=
  ⟨fun hv => walkStep_mask_comp cfg path key v h hv,
   fun hv => walkStep_mask_prim cfg path key v h hv⟩

/-- C7 witness: a mask rule on the key a masks the ten-character string
secret-key to eight asterisks while an object child is recursed into. -/
theorem mask_only_primitives_witness :
    walkStep c7cfg [] "a" (.vStr "secret-key") = .vStr "********"
    ∧ walkStep c7cfg [] "a" (.vObj [("x", .vNum 1)]) = walk c7cfg (.vObj [("x", .vNum 1)]) ["a"] := by
  constructor
  · have h := (mask_only_primitives c7cfg [] "a" (.vStr "secret-key") rfl).2 rfl
    rw [h]
    congr 1
    simp only [jsString]
    decide
  · exact (mask_only_primitives c7cfg [] "a" (.vObj [("x", .vNum 1)]) rfl).1 rfl

/-- C8 counterexample: matchRule matches a.b.c against the non-final
any-depth pattern a.**.c by backtracking, yet sanitize leaves the input
{a: {b: {c: "x"}}} completely unchanged under that rule, because its rule
selection never consults matchRule and does not support a non-final **. -/
theorem nonfinal_starstar_rule_not_applied :
    matchRule "a.b.c" [("a.**.c", SanitizerMode.redact)] = some .redact
    ∧ sanitize c8input { rules := some [("a.**.c", .redact)] } {} = c8input := by
  refine ⟨by decide, ?_⟩
  show walk (resolveOptions { rules := some [("a.**.c", .redact)] } {}) c8input [] = c8input
  rw [c8input]
  rw [walk_vObj, walkFields_cons, walkFields_nil, walkStep_preserve_comp _ _ _ _ (by rfl) (by rfl)]
  rw [walk_vObj, walkFields_cons, walkFields_nil, walkStep_preserve_comp _ _ _ _ (by rfl) (by rfl)]
  rw [walk_vObj, walkFields_cons, walkFields_nil, walkStep_preserve_prim _ _ _ _ (by rfl) (by rfl)]

/-- C8 (amended): the standalone matchRule helper does implement
backtracking - a non-final ** matches exactly when consuming some number
of segments lets the remaining pattern match the remaining path - but
sanitize selects modes through findMostSpecificRule, which does not match
a non-final ** pattern, so the mode of such a rule is not applied. -/
theorem starstar_backtracking_semantics :
    (∀ (rest ps : List String), rest ≠ [] →
      (matchSeg ("**" :: rest) ps = true ↔
        ∃ k, k ≤ ps.length ∧ matchSeg rest (ps.drop k) = true))
    ∧ (∀ m : SanitizerMode, matchRule "a.b.c" [("a.**.c", m)] = some m)
    ∧ (∀ m : SanitizerMode,
      findMostSpecificRule "a.b.c" ["a", "b", "c"] [("a.**.c", m)] true = none) := by
  refine ⟨fun rest ps hrest => ?_, fun m => rfl, fun m => rfl⟩
  simp only [matchSeg]
  simp [hrest, List.any_eq_true, Nat.lt_succ_iff]

/-- C8 witness: the backtracking equivalence instantiated at the pattern
suffix [c] and path [b, c]. -/
theorem starstar_backtracking_semantics_witness :
    matchSeg ["**", "c"] ["b", "c"] = true ↔
      ∃ k, k ≤ 2 ∧ matchSeg ["c"] (List.drop k ["b", "c"]) = true :=
  starstar_backtracking_semantics.1 ["c"] ["b", "c"] (by decide)

/-- C9: with the default options - empty rule set and default mode preserve -
sanitize returns a value equal to its input, for every finite input tree
and every oracle. -/
theorem preserve_defaults_identity :
    ∀ (v : JSValue) (oracle : RandomOracle), sanitize v {} oracle = v := by
  intro v oracle
  exact walk_preserve_bound (resolveOptions {} oracle) rfl rfl (sizeOf v) v [] le_rfl

/-- C10: at every node the walker recurses into, an object maps to an object
with exactly the same key sequence and an array maps to an array of the
same length, for every configuration; a mode only ever replaces the value
stored under a key. -/
theorem walker_preserves_shape :
    ∀ (cfg : SanitizeConfig) (path : List String) (fs : List (String × JSValue))
      (es : List JSValue) (i : Nat),
      walk cfg (.vObj fs) path = .vObj (walkFields cfg path fs)
      ∧ (walkFields cfg path fs).map Prod.fst = fs.map Prod.fst
      ∧ walk cfg (.vArr es) path = .vArr (walkElems cfg path 0 es)
      ∧ (walkElems cfg path i es).length = es.length := by
  intro cfg path fs es i
  refine ⟨walk_vObj cfg fs path, ?_, walk_vArr cfg es path, ?_⟩
  · induction fs with
    | nil => simp [walkFields_nil]
    | cons p rest ih =>
      obtain ⟨k, v⟩ := p
      rw [walkFields_cons]
      simp [ih]
  · induction es generalizing i with
    | nil => simp [walkElems_nil]
    | cons v rest ih =>
      rw [walkElems_cons]
      simp [ih]
